import Mathlib

/-!
Shallow embedding of the KuloSplit split-bill manager core
(`src/App.tsx`, `src/types.ts`, `src/unnamed/part_001`).

JavaScript numbers are modelled as exact rationals (ℚ); the
`itemAssignments` object (`{ [itemId]: participantId | null }`) is
modelled as an association list of entries whose value `none` stands
for JavaScript `null`; an absent key and a `null` value are both
"falsy" in the source's lookups, which `getAssignment` reflects by
flattening both to `none`.
-/

namespace KuloSplit

/-- Structure `ReceiptItem` from `src/types.ts`: `price` is the total price of the line. -/
structure ReceiptItem where
  id : String
  name : String
  quantity : ℚ
  price : ℚ
  deriving DecidableEq

/-- Structure `Participant` from `src/types.ts`. -/
structure Participant where
  id : String
  name : String
  deriving DecidableEq

/-- Structure `BillSession` from `src/types.ts` (the receipt image is irrelevant to the
claims and omitted; `itemAssignments` is the entries list of the JS object). -/
structure BillSession where
  id : String
  createdAt : Nat
  description : Option String
  extractedItems : List ReceiptItem
  participants : List Participant
  itemAssignments : List (String × Option String)
  taxAmount : ℚ
  serviceFeeAmount : ℚ
  deriving DecidableEq

/-- Structure `ParticipantShare` from `src/types.ts`. -/
structure ParticipantShare where
  participantId : String
  participantName : String
  items : List ReceiptItem
  subtotal : ℚ
  taxShare : ℚ
  serviceFeeShare : ℚ
  totalOwed : ℚ
  deriving DecidableEq

/-- Structure `StoredBillSession` from `src/types.ts`. -/
structure StoredBillSession extends BillSession where
  calculatedShares : Option (List ParticipantShare)
  deriving DecidableEq

/-- Type `AppStep` from `src/types.ts`. -/
inductive AppStep where
  | UPLOAD_RECEIPT
  | EDIT_BILL_DETAILS
  | VIEW_SUMMARY
  | VIEW_HISTORY
  deriving DecidableEq

/-- The source's read of `currentBill.itemAssignments[item.id]` followed by a
truthiness test: an absent key and a stored `null` both yield `none`
(participant ids are nonempty strings generated by `crypto.randomUUID`). -/
def getAssignment : List (String × Option String) → String → Option String
  | [], _ => none
  | e :: rest, itemId => if e.1 = itemId then e.2 else getAssignment rest itemId

/-- The zeroed share built for each participant at the start of
`calculateShares` (`src/App.tsx` lines 185-193). -/
def initialShare (p : Participant) : ParticipantShare :=
  { participantId := p.id, participantName := p.name, items := [], subtotal := 0,
    taxShare := 0, serviceFeeShare := 0, totalOwed := 0 }

/-- Translation of `participantShares.find(s => s.participantId === assignedParticipantId)`
followed by the in-place `share.items.push(item); share.subtotal += itemLineTotal`:
the first share with the matching id is credited; when no share matches the
update silently does nothing (`src/App.tsx` lines 201-206). -/
def creditItem (shares : List ParticipantShare) (pid : String) (item : ReceiptItem) :
    List ParticipantShare :=
  match shares with
  | [] => []
  | s :: rest =>
    if s.participantId = pid then
      { s with items := s.items ++ [item], subtotal := s.subtotal + item.price } :: rest
    else
      s :: creditItem rest pid item

/-- One iteration of the `currentBill.extractedItems.forEach` loop of
`calculateShares` (`src/App.tsx` lines 196-207): the running pair is
`(totalBillSubtotal, participantShares)`. -/
def processItem (assignments : List (String × Option String))
    (acc : ℚ × List ParticipantShare) (item : ReceiptItem) :
    ℚ × List ParticipantShare :=
  let total := acc.1 + item.price
  match getAssignment assignments item.id with
  | some pid => (total, creditItem acc.2 pid item)
  | none => (total, acc.2)

/-- The whole item loop of `calculateShares`. -/
def distributeItems (bill : BillSession) (shares : List ParticipantShare) :
    ℚ × List ParticipantShare :=
  bill.extractedItems.foldl (processItem bill.itemAssignments) (0, shares)

/-- The fee-distribution branches of `calculateShares`
(`src/App.tsx` lines 209-223). -/
def applyFees (bill : BillSession) (totalBillSubtotal : ℚ)
    (shares : List ParticipantShare) : List ParticipantShare :=
  if totalBillSubtotal = 0 ∧ (0 < bill.taxAmount ∨ 0 < bill.serviceFeeAmount) then
    if 0 < bill.participants.length then
      shares.map (fun s =>
        { s with taxShare := bill.taxAmount / (bill.participants.length : ℚ),
                 serviceFeeShare := bill.serviceFeeAmount / (bill.participants.length : ℚ) })
    else shares
  else if 0 < totalBillSubtotal then
    shares.map (fun s =>
      { s with taxShare := bill.taxAmount * (s.subtotal / totalBillSubtotal),
               serviceFeeShare := bill.serviceFeeAmount * (s.subtotal / totalBillSubtotal) })
  else shares

/-- The final `share.totalOwed = share.subtotal + share.taxShare +
share.serviceFeeShare` pass (`src/App.tsx` lines 225-227). -/
def finalizeTotals (shares : List ParticipantShare) : List ParticipantShare :=
  shares.map (fun s => { s with totalOwed := s.subtotal + s.taxShare + s.serviceFeeShare })

/-- Function `calculateShares` (`src/App.tsx` lines 182-230), as a function of the bill. -/
def calculateShares (bill : BillSession) : List ParticipantShare :=
  if bill.participants.length = 0 then []
  else
    let r := distributeItems bill (bill.participants.map initialShare)
    finalizeTotals (applyFees bill r.1 r.2)

/-- Function `handleRemoveParticipant` (`src/App.tsx` lines 117-126): the participant is
filtered out and the assignment entries whose value is that participant are
dropped (`pId !== participantId` keeps `null`-valued entries). -/
def handleRemoveParticipant (bill : BillSession) (participantId : String) : BillSession :=
  { bill with
    participants := bill.participants.filter (fun p => p.id ≠ participantId),
    itemAssignments := bill.itemAssignments.filter (fun e => e.2 ≠ some participantId) }

/-- The items of the bill with a falsy assignment entry
(`!currentBill.itemAssignments[item.id]`, `src/App.tsx` line 247). -/
def unassignedItems (bill : BillSession) : List ReceiptItem :=
  bill.extractedItems.filter (fun item => getAssignment bill.itemAssignments item.id = none)

def msgNoBill : String := "No bill data available."

def msgNoParticipants : String := "Please add participants before viewing summary."

def msgNoItems : String := "Please add items to the bill."

def msgUnassigned (n : Nat) : String :=
  "Please assign all items. " ++ toString n ++ " item(s) are unassigned."

/-- The pieces of the component state that `handleViewSummary` reads or writes. -/
structure AppState where
  currentBill : Option BillSession
  appStep : AppStep
  errorMessage : String
  deriving DecidableEq

/-- Function `handleViewSummary` (`src/App.tsx` lines 233-253): `clearMessages`, then the
four gates in source order, each returning early with its message, else the step
becomes `VIEW_SUMMARY`. -/
def handleViewSummary (st : AppState) : AppState :=
  let st := { st with errorMessage := "" }
  match st.currentBill with
  | none => { st with errorMessage := msgNoBill }
  | some bill =>
    if bill.participants.length = 0 then
      { st with errorMessage := msgNoParticipants }
    else if bill.extractedItems.length = 0 then
      { st with errorMessage := msgNoItems }
    else if 0 < (unassignedItems bill).length ∧ 0 < bill.participants.length then
      { st with errorMessage := msgUnassigned (unassignedItems bill).length }
    else
      { st with appStep := AppStep.VIEW_SUMMARY }

/-- Function `addBillToStorage` (`src/unnamed/part_001` lines 24-29): the new bill is
prepended to the stored list. -/
def addBillToStorage (bill : StoredBillSession) (bills : List StoredBillSession) :
    List StoredBillSession :=
  bill :: bills

/-- The pieces of the component state that `handleSaveBill` reads or writes;
`historicalBills` also stands for the localStorage list, which the component
keeps in sync with it. -/
structure SaveState where
  currentBill : Option BillSession
  appStep : AppStep
  historicalBills : List StoredBillSession
  deriving DecidableEq

/-- Function `handleSaveBill` (`src/App.tsx` lines 255-265): compute the shares once,
freeze them into the stored bill, prepend it to history, drop the in-progress
bill and return to `UPLOAD_RECEIPT`. -/
def handleSaveBill (st : SaveState) : SaveState :=
  match st.currentBill with
  | none => st
  | some bill =>
    let finalShares := calculateShares bill
    let billToSave : StoredBillSession :=
      { toBillSession := bill, calculatedShares := some finalShares }
    { currentBill := none,
      appStep := AppStep.UPLOAD_RECEIPT,
      historicalBills := addBillToStorage billToSave st.historicalBills }

/-- Sum of the `price` fields, i.e. the `totalBillSubtotal` accumulated by the
item loop. -/
def sumPrices (items : List ReceiptItem) : ℚ :=
  (items.map (fun i => i.price)).sum

/-- Sum of the `subtotal` fields over a share list. -/
def sumSubtotals (shares : List ParticipantShare) : ℚ :=
  (shares.map (fun s => s.subtotal)).sum

/-- Sum of the `taxShare` fields over a share list. -/
def sumTaxShares (shares : List ParticipantShare) : ℚ :=
  (shares.map (fun s => s.taxShare)).sum

/-- Sum of the `serviceFeeShare` fields over a share list. -/
def sumServiceFeeShares (shares : List ParticipantShare) : ℚ :=
  (shares.map (fun s => s.serviceFeeShare)).sum

/-- The ids of the bill's participants, in order. -/
def participantIds (bill : BillSession) : List String :=
  bill.participants.map (fun p => p.id)

/-- The item's assignment entry resolves to an id among `P`. -/
def resolvesTo (assignments : List (String × Option String)) (P : List String)
    (item : ReceiptItem) : Bool :=
  match getAssignment assignments item.id with
  | some pid => pid ∈ P
  | none => false

/-- The item's assignment entry resolves to a participant that is actually in
the bill's participant list. -/
def assignedToParticipant (bill : BillSession) (item : ReceiptItem) : Bool :=
  resolvesTo bill.itemAssignments (participantIds bill) item

/-- Total price of the items credited to some share: those whose assignment
resolves to an id in `P`. -/
def assignedTo (assignments : List (String × Option String)) (P : List String)
    (items : List ReceiptItem) : ℚ :=
  (items.map (fun item => if resolvesTo assignments P item then item.price else 0)).sum

/-- Total price of the bill's items whose assignment names a participant of the
bill (the prices that end up in some share's subtotal). -/
def assignedPrices (bill : BillSession) : ℚ :=
  assignedTo bill.itemAssignments (participantIds bill) bill.extractedItems

/-- Rewriting the assignment entry of `itemId` to `null`: the modified bill used
to state that a dangling assignment behaves like an unassigned item. -/
def nullifyAssignment (assignments : List (String × Option String)) (itemId : String) :
    List (String × Option String) :=
  assignments.map (fun e => if e.1 = itemId then (e.1, none) else e)

/-- The spec's normal-case example: items 20000 (assigned to A) and 30000
(assigned to B), `taxAmount = 5000`, `serviceFeeAmount = 0`. -/
def exampleBill1 : BillSession :=
  { id := "b1", createdAt := 0, description := none,
    extractedItems := [⟨"i1", "Nasi", 1, 20000⟩, ⟨"i2", "Ayam", 1, 30000⟩],
    participants := [⟨"pA", "A"⟩, ⟨"pB", "B"⟩],
    itemAssignments := [("i1", some "pA"), ("i2", some "pB")],
    taxAmount := 5000, serviceFeeAmount := 0 }

/-- One participant, one priced yet unassigned item, nonzero tax: the fee is
distributed proportionally to the (empty) assigned subtotals. -/
def cexBill2 : BillSession :=
  { id := "b2", createdAt := 0, description := none,
    extractedItems := [⟨"i1", "X", 1, 100⟩],
    participants := [⟨"pA", "A"⟩],
    itemAssignments := [],
    taxAmount := 10, serviceFeeAmount := 0 }

/-- The spec's degenerate-case example: no priced items, `taxAmount = 90000`,
three participants. -/
def degBill : BillSession :=
  { id := "b4", createdAt := 0, description := none,
    extractedItems := [],
    participants := [⟨"p1", "P1"⟩, ⟨"p2", "P2"⟩, ⟨"p3", "P3"⟩],
    itemAssignments := [],
    taxAmount := 90000, serviceFeeAmount := 0 }

/-- A bill whose item prices cancel to zero without all being zero. -/
def cexBill8 : BillSession :=
  { id := "b8", createdAt := 0, description := none,
    extractedItems := [⟨"i1", "X", 1, 5⟩, ⟨"i2", "Y", 1, -5⟩],
    participants := [⟨"pA", "A"⟩],
    itemAssignments := [("i1", some "pA")],
    taxAmount := 0, serviceFeeAmount := 0 }

/-- A bill with a single zero-priced assigned item and no fees. -/
def zeroBill : BillSession :=
  { id := "b0", createdAt := 0, description := none,
    extractedItems := [⟨"i1", "X", 1, 0⟩],
    participants := [⟨"pA", "A"⟩],
    itemAssignments := [("i1", some "pA")],
    taxAmount := 0, serviceFeeAmount := 0 }

/-- A bill whose only item has a negative price, with positive fees. -/
def negBill : BillSession :=
  { id := "b9", createdAt := 0, description := none,
    extractedItems := [⟨"i1", "Refund", 1, -100⟩],
    participants := [⟨"pA", "A"⟩],
    itemAssignments := [("i1", some "pA")],
    taxAmount := 5000, serviceFeeAmount := 700 }

/-- A bill with two participants and two items, both assigned to participant
`pA`, plus a `null`-valued entry. -/
def exBill6 : BillSession :=
  { id := "b6", createdAt := 0, description := none,
    extractedItems := [⟨"i1", "X", 1, 10⟩, ⟨"i2", "Y", 1, 20⟩, ⟨"i3", "Z", 1, 30⟩],
    participants := [⟨"pA", "A"⟩, ⟨"pB", "B"⟩],
    itemAssignments := [("i1", some "pA"), ("i2", some "pB"), ("i3", none)],
    taxAmount := 0, serviceFeeAmount := 0 }

/-- One participant, one item, no assignment: the unassigned-items gate fires. -/
def exBill5 : BillSession :=
  { id := "b5", createdAt := 0, description := none,
    extractedItems := [⟨"i1", "X", 1, 100⟩],
    participants := [⟨"pA", "A"⟩],
    itemAssignments := [],
    taxAmount := 0, serviceFeeAmount := 0 }

/-- An editing state holding `exBill5`. -/
def exState5 : AppState :=
  { currentBill := some exBill5, appStep := AppStep.EDIT_BILL_DETAILS, errorMessage := "x" }

/-- A save-time state holding `exampleBill1` and an empty history. -/
def exSave7 : SaveState :=
  { currentBill := some exampleBill1, appStep := AppStep.VIEW_SUMMARY, historicalBills := [] }

/-- A bill whose only item is assigned to an id that is not a participant. -/
def ghostBill : BillSession :=
  { id := "bg", createdAt := 0, description := none,
    extractedItems := [⟨"i1", "X", 1, 100⟩, ⟨"i2", "Y", 1, 300⟩],
    participants := [⟨"pA", "A"⟩],
    itemAssignments := [("i1", some "ghost"), ("i2", some "pA")],
    taxAmount := 400, serviceFeeAmount := 0 }

lemma sumPrices_nil : sumPrices [] = 0 := rfl

lemma sumPrices_cons (item : ReceiptItem) (items : List ReceiptItem) :
    sumPrices (item :: items) = item.price + sumPrices items := by
  simp [sumPrices]

lemma sumSubtotals_cons (s : ParticipantShare) (shares : List ParticipantShare) :
    sumSubtotals (s :: shares) = s.subtotal + sumSubtotals shares := by
  simp [sumSubtotals]

lemma assignedTo_cons (assignments : List (String × Option String)) (P : List String)
    (item : ReceiptItem) (items : List ReceiptItem) :
    assignedTo assignments P (item :: items) =
      (if resolvesTo assignments P item then item.price else 0) +
        assignedTo assignments P items := by
  simp [assignedTo]

lemma processItem_fst (assignments : List (String × Option String))
    (acc : ℚ × List ParticipantShare) (item : ReceiptItem) :
    (processItem assignments acc item).1 = acc.1 + item.price := by
  unfold processItem
  cases h : getAssignment assignments item.id <;> simp [h]

lemma creditItem_ids (shares : List ParticipantShare) (pid : String) (item : ReceiptItem) :
    (creditItem shares pid item).map (fun s => s.participantId) =
      shares.map (fun s => s.participantId) := by
  induction shares with
  | nil => rfl
  | cons s rest ih =>
    by_cases h : s.participantId = pid <;> simp [creditItem, h, ih]

lemma processItem_snd_ids (assignments : List (String × Option String))
    (acc : ℚ × List ParticipantShare) (item : ReceiptItem) :
    ((processItem assignments acc item).2).map (fun s => s.participantId) =
      acc.2.map (fun s => s.participantId) := by
  unfold processItem
  cases h : getAssignment assignments item.id <;> simp [h, creditItem_ids]

lemma foldl_processItem_fst (assignments : List (String × Option String))
    (items : List ReceiptItem) :
    ∀ (a : ℚ) (shares : List ParticipantShare),
      (items.foldl (processItem assignments) (a, shares)).1 = a + sumPrices items := by
  induction items with
  | nil => intro a shares; simp [sumPrices]
  | cons item rest ih =>
    intro a shares
    rw [List.foldl_cons]
    calc (List.foldl (processItem assignments) (processItem assignments (a, shares) item) rest).1
        = (processItem assignments (a, shares) item).1 + sumPrices rest :=
          ih (processItem assignments (a, shares) item).1
            (processItem assignments (a, shares) item).2
      _ = (a + item.price) + sumPrices rest := by rw [processItem_fst]
      _ = a + sumPrices (item :: rest) := by rw [sumPrices_cons]; ring

lemma foldl_processItem_ids (assignments : List (String × Option String))
    (items : List ReceiptItem) :
    ∀ (a : ℚ) (shares : List ParticipantShare),
      ((items.foldl (processItem assignments) (a, shares)).2).map (fun s => s.participantId) =
        shares.map (fun s => s.participantId) := by
  induction items with
  | nil => intro a shares; rfl
  | cons item rest ih =>
    intro a shares
    rw [List.foldl_cons]
    calc ((List.foldl (processItem assignments) (processItem assignments (a, shares) item)
            rest).2).map (fun s => s.participantId)
        = ((processItem assignments (a, shares) item).2).map (fun s => s.participantId) :=
          ih (processItem assignments (a, shares) item).1
            (processItem assignments (a, shares) item).2
      _ = shares.map (fun s => s.participantId) := processItem_snd_ids assignments (a, shares) item

lemma creditItem_sumSubtotals (shares : List ParticipantShare) (pid : String)
    (item : ReceiptItem) :
    sumSubtotals (creditItem shares pid item) =
      sumSubtotals shares +
        (if pid ∈ shares.map (fun s => s.participantId) then item.price else 0) := by
  induction shares with
  | nil => simp [creditItem, sumSubtotals]
  | cons s rest ih =>
    by_cases h : s.participantId = pid
    · simp only [creditItem, if_pos h, sumSubtotals_cons, List.map_cons, List.mem_cons, h,
        true_or, if_pos]
      ring
    · have h2 : ¬ pid = s.participantId := fun hh => h hh.symm
      simp only [creditItem, if_neg h, sumSubtotals_cons, List.map_cons, List.mem_cons, h2,
        false_or, ih]
      ring

lemma foldl_processItem_sumSubtotals (assignments : List (String × Option String))
    (items : List ReceiptItem) :
    ∀ (a : ℚ) (shares : List ParticipantShare),
      sumSubtotals ((items.foldl (processItem assignments) (a, shares)).2) =
        sumSubtotals shares +
          assignedTo assignments (shares.map (fun s => s.participantId)) items := by
  induction items with
  | nil => intro a shares; simp [assignedTo, sumSubtotals]
  | cons item rest ih =>
    intro a shares
    have hstep : sumSubtotals (processItem assignments (a, shares) item).2 =
        sumSubtotals shares +
          (if resolvesTo assignments (shares.map (fun s => s.participantId)) item
            then item.price else 0) := by
      unfold processItem resolvesTo
      cases h : getAssignment assignments item.id <;> simp [h, creditItem_sumSubtotals]
    rw [List.foldl_cons]
    calc sumSubtotals ((List.foldl (processItem assignments)
            (processItem assignments (a, shares) item) rest).2)
        = sumSubtotals (processItem assignments (a, shares) item).2 +
            assignedTo assignments
              (((processItem assignments (a, shares) item).2).map (fun s => s.participantId))
              rest :=
          ih (processItem assignments (a, shares) item).1
            (processItem assignments (a, shares) item).2
      _ = sumSubtotals (processItem assignments (a, shares) item).2 +
            assignedTo assignments (shares.map (fun s => s.participantId)) rest := by
          rw [processItem_snd_ids]
      _ = sumSubtotals shares +
            assignedTo assignments (shares.map (fun s => s.participantId)) (item :: rest) := by
          rw [hstep, assignedTo_cons]; ring

lemma creditItem_of_not_mem (shares : List ParticipantShare) (pid : String)
    (item : ReceiptItem) (h : pid ∉ shares.map (fun s => s.participantId)) :
    creditItem shares pid item = shares := by
  induction shares with
  | nil => rfl
  | cons s rest ih =>
    simp only [List.map_cons, List.mem_cons, not_or] at h
    obtain ⟨h1, h2⟩ := h
    simp only [creditItem, if_neg (fun hh : s.participantId = pid => h1 hh.symm), ih h2]

lemma creditItem_preserves {Q : ParticipantShare → Prop} {item : ReceiptItem}
    (hQ : ∀ s : ParticipantShare, Q s →
      Q { s with items := s.items ++ [item], subtotal := s.subtotal + item.price })
    (shares : List ParticipantShare) (pid : String)
    (h : ∀ s ∈ shares, Q s) :
    ∀ s ∈ creditItem shares pid item, Q s := by
  induction shares with
  | nil => simp [creditItem]
  | cons s rest ih =>
    intro t ht
    by_cases hp : s.participantId = pid
    · simp only [creditItem, if_pos hp, List.mem_cons] at ht
      rcases ht with h1 | h2
      · subst h1; exact hQ s (h s (by simp))
      · exact h t (by simp [h2])
    · simp only [creditItem, if_neg hp, List.mem_cons] at ht
      rcases ht with h1 | h2
      · subst h1; exact h t (by simp)
      · exact ih (fun u hu => h u (by simp [hu])) t h2

lemma foldl_processItem_preserves {Q : ParticipantShare → Prop}
    (assignments : List (String × Option String)) (items : List ReceiptItem)
    (hQ : ∀ s : ParticipantShare, ∀ item ∈ items, Q s →
      Q { s with items := s.items ++ [item], subtotal := s.subtotal + item.price }) :
    ∀ (a : ℚ) (shares : List ParticipantShare), (∀ s ∈ shares, Q s) →
      ∀ s ∈ (items.foldl (processItem assignments) (a, shares)).2, Q s := by
  induction items with
  | nil => intro a shares h; simpa using h
  | cons item rest ih =>
    intro a shares h
    rw [List.foldl_cons]
    have hstep : ∀ s ∈ (processItem assignments (a, shares) item).2, Q s := by
      unfold processItem
      cases hg : getAssignment assignments item.id with
      | none => simpa [hg] using h
      | some pid =>
        simp only [hg]
        exact creditItem_preserves (fun s hs => hQ s item (by simp) hs) shares pid h
    exact ih (fun s it hit hs => hQ s it (by simp [hit]) hs)
      (processItem assignments (a, shares) item).1
      (processItem assignments (a, shares) item).2 hstep

lemma creditItem_itemsInv (assignments : List (String × Option String))
    (shares : List ParticipantShare) (pid : String) (item : ReceiptItem)
    (hassign : getAssignment assignments item.id = some pid)
    (h : ∀ s ∈ shares, ∀ it ∈ s.items,
      getAssignment assignments it.id = some s.participantId) :
    ∀ s ∈ creditItem shares pid item, ∀ it ∈ s.items,
      getAssignment assignments it.id = some s.participantId := by
  induction shares with
  | nil => simp [creditItem]
  | cons s rest ih =>
    intro t ht
    by_cases hp : s.participantId = pid
    · simp only [creditItem, if_pos hp, List.mem_cons] at ht
      rcases ht with h1 | h2
      · subst h1
        intro it hit
        simp only [List.mem_append, List.mem_singleton] at hit
        rcases hit with hold | hnew
        · exact h s (by simp) it hold
        · subst hnew; rw [hassign, hp]
      · exact h t (by simp [h2])
    · simp only [creditItem, if_neg hp, List.mem_cons] at ht
      rcases ht with h1 | h2
      · subst h1; exact h t (by simp)
      · exact ih (fun u hu => h u (by simp [hu])) t h2

lemma foldl_processItem_itemsInv (assignments : List (String × Option String))
    (items : List ReceiptItem) :
    ∀ (a : ℚ) (shares : List ParticipantShare),
      (∀ s ∈ shares, ∀ it ∈ s.items,
        getAssignment assignments it.id = some s.participantId) →
      ∀ s ∈ (items.foldl (processItem assignments) (a, shares)).2, ∀ it ∈ s.items,
        getAssignment assignments it.id = some s.participantId := by
  induction items with
  | nil => intro a shares h; simpa using h
  | cons item rest ih =>
    intro a shares h
    rw [List.foldl_cons]
    have hstep : ∀ s ∈ (processItem assignments (a, shares) item).2, ∀ it ∈ s.items,
        getAssignment assignments it.id = some s.participantId := by
      unfold processItem
      cases hg : getAssignment assignments item.id with
      | none => simpa [hg] using h
      | some pid =>
        simp only [hg]
        exact creditItem_itemsInv assignments shares pid item hg h
    exact ih (processItem assignments (a, shares) item).1
      (processItem assignments (a, shares) item).2 hstep

lemma applyFees_pos (bill : BillSession) (t : ℚ) (shares : List ParticipantShare)
    (h : 0 < t) :
    applyFees bill t shares = shares.map (fun s =>
      { s with taxShare := bill.taxAmount * (s.subtotal / t),
               serviceFeeShare := bill.serviceFeeAmount * (s.subtotal / t) }) := by
  unfold applyFees
  rw [if_neg (fun hc => ne_of_gt h hc.1), if_pos h]

lemma applyFees_deg (bill : BillSession) (t : ℚ) (shares : List ParticipantShare)
    (h0 : t = 0) (hf : 0 < bill.taxAmount ∨ 0 < bill.serviceFeeAmount)
    (hn : 0 < bill.participants.length) :
    applyFees bill t shares = shares.map (fun s =>
      { s with taxShare := bill.taxAmount / (bill.participants.length : ℚ),
               serviceFeeShare := bill.serviceFeeAmount / (bill.participants.length : ℚ) }) := by
  unfold applyFees
  rw [if_pos ⟨h0, hf⟩, if_pos hn]

lemma applyFees_zero_noFees (bill : BillSession) (t : ℚ) (shares : List ParticipantShare)
    (h0 : t = 0) (hf : ¬(0 < bill.taxAmount ∨ 0 < bill.serviceFeeAmount)) :
    applyFees bill t shares = shares := by
  unfold applyFees
  rw [if_neg (fun hc => hf hc.2), if_neg (by rw [h0]; exact lt_irrefl 0)]

lemma applyFees_neg (bill : BillSession) (t : ℚ) (shares : List ParticipantShare)
    (h : t < 0) :
    applyFees bill t shares = shares := by
  unfold applyFees
  rw [if_neg (fun hc => absurd hc.1 (ne_of_lt h)), if_neg (lt_asymm h)]

lemma distributeItems_fst (bill : BillSession) (shares : List ParticipantShare) :
    (distributeItems bill shares).1 = sumPrices bill.extractedItems := by
  unfold distributeItems
  rw [foldl_processItem_fst, zero_add]

lemma calculateShares_eq (bill : BillSession) (h : bill.participants.length ≠ 0) :
    calculateShares bill =
      finalizeTotals (applyFees bill (sumPrices bill.extractedItems)
        (distributeItems bill (bill.participants.map initialShare)).2) := by
  simp only [calculateShares, if_neg h, distributeItems_fst]

lemma initialShares_ids (bill : BillSession) :
    (bill.participants.map initialShare).map (fun s => s.participantId) =
      participantIds bill := by
  simp [initialShare, participantIds, List.map_map]

lemma distributeItems_ids (bill : BillSession) :
    ((distributeItems bill (bill.participants.map initialShare)).2).map
        (fun s => s.participantId) = participantIds bill := by
  unfold distributeItems
  rw [foldl_processItem_ids, initialShares_ids]

lemma initialShares_sumSubtotals (bill : BillSession) :
    sumSubtotals (bill.participants.map initialShare) = 0 := by
  unfold sumSubtotals
  apply List.sum_eq_zero
  intro x hx
  simp only [List.map_map, List.mem_map] at hx
  obtain ⟨p, -, rfl⟩ := hx
  rfl

lemma distributeItems_sumSubtotals (bill : BillSession) :
    sumSubtotals ((distributeItems bill (bill.participants.map initialShare)).2) =
      assignedPrices bill := by
  unfold distributeItems
  rw [foldl_processItem_sumSubtotals, initialShares_sumSubtotals, zero_add,
    initialShares_ids]
  rfl

lemma assignedTo_eq_sumPrices (assignments : List (String × Option String))
    (P : List String) (items : List ReceiptItem)
    (h : ∀ item ∈ items, resolvesTo assignments P item = true) :
    assignedTo assignments P items = sumPrices items := by
  induction items with
  | nil => rfl
  | cons item rest ih =>
    rw [assignedTo_cons, sumPrices_cons, if_pos (h item (by simp)),
      ih (fun it hit => h it (by simp [hit]))]

lemma finalizeTotals_mem {s : ParticipantShare} {shares : List ParticipantShare}
    (h : s ∈ finalizeTotals shares) :
    ∃ u ∈ shares, s = { u with totalOwed := u.subtotal + u.taxShare + u.serviceFeeShare } := by
  simp only [finalizeTotals, List.mem_map] at h
  obtain ⟨u, hu, rfl⟩ := h
  exact ⟨u, hu, rfl⟩

lemma applyFees_mem {bill : BillSession} {t : ℚ} {shares : List ParticipantShare}
    {s : ParticipantShare} (h : s ∈ applyFees bill t shares) :
    ∃ u ∈ shares, s.items = u.items ∧ s.participantId = u.participantId ∧
      s.subtotal = u.subtotal := by
  unfold applyFees at h
  by_cases h1 : t = 0 ∧ (0 < bill.taxAmount ∨ 0 < bill.serviceFeeAmount)
  · rw [if_pos h1] at h
    by_cases h2 : 0 < bill.participants.length
    · rw [if_pos h2] at h
      simp only [List.mem_map] at h
      obtain ⟨u, hu, rfl⟩ := h
      exact ⟨u, hu, rfl, rfl, rfl⟩
    · rw [if_neg h2] at h
      exact ⟨s, h, rfl, rfl, rfl⟩
  · rw [if_neg h1] at h
    by_cases h2 : 0 < t
    · rw [if_pos h2] at h
      simp only [List.mem_map] at h
      obtain ⟨u, hu, rfl⟩ := h
      exact ⟨u, hu, rfl, rfl, rfl⟩
    · rw [if_neg h2] at h
      exact ⟨s, h, rfl, rfl, rfl⟩

lemma sum_mul_div (l : List ParticipantShare) (c t : ℚ) :
    (l.map (fun s => c * (s.subtotal / t))).sum = c * (sumSubtotals l / t) := by
  induction l with
  | nil => simp [sumSubtotals]
  | cons s rest ih =>
    simp only [List.map_cons, List.sum_cons, sumSubtotals_cons, ih]
    ring

lemma getAssignment_eq_none_of_not_mem (l : List (String × Option String)) (k : String)
    (h : k ∉ l.map (fun e => e.1)) : getAssignment l k = none := by
  induction l with
  | nil => rfl
  | cons e rest ih =>
    simp only [List.map_cons, List.mem_cons, not_or] at h
    simp only [getAssignment]
    rw [if_neg (fun hh : e.1 = k => h.1 hh.symm)]
    exact ih h.2

lemma getAssignment_filter_ne (l : List (String × Option String)) (pid k : String)
    (hnd : (l.map (fun e => e.1)).Nodup) :
    getAssignment (l.filter (fun e => e.2 ≠ some pid)) k =
      if getAssignment l k = some pid then none else getAssignment l k := by
  induction l with
  | nil => simp [getAssignment]
  | cons e rest ih =>
    simp only [List.map_cons, List.nodup_cons] at hnd
    obtain ⟨hk, hnd'⟩ := hnd
    by_cases hv : e.2 = some pid
    · rw [List.filter_cons, if_neg (by simp [hv])]
      by_cases hek : e.1 = k
      · have hl : getAssignment (e :: rest) k = some pid := by
          simp only [getAssignment, if_pos hek, hv]
        rw [hl, if_pos rfl]
        apply getAssignment_eq_none_of_not_mem
        intro hmem
        simp only [List.mem_map] at hmem
        obtain ⟨e2, he2, hke⟩ := hmem
        have he2' : e2 ∈ rest := (List.mem_filter.mp he2).1
        exact hk (by rw [hek, ← hke]; exact List.mem_map_of_mem (fun e => e.1) he2')
      · have hl : getAssignment (e :: rest) k = getAssignment rest k := by
          simp only [getAssignment, if_neg hek]
        rw [hl, ih hnd']
    · rw [List.filter_cons, if_pos (by simp [hv])]
      by_cases hek : e.1 = k
      · simp only [getAssignment, if_pos hek, if_neg hv]
      · simp only [getAssignment, if_neg hek]
        exact ih hnd'

lemma getAssignment_nullify (l : List (String × Option String)) (itemId k : String) :
    getAssignment (nullifyAssignment l itemId) k =
      if k = itemId then none else getAssignment l k := by
  induction l with
  | nil => simp [nullifyAssignment, getAssignment]
  | cons e rest ih =>
    simp only [nullifyAssignment, List.map_cons] at ih ⊢
    by_cases he : e.1 = itemId
    · rw [if_pos he]
      by_cases hek : e.1 = k
      · simp only [getAssignment, if_pos hek]
        rw [if_pos (by rw [← hek, he])]
      · simp only [getAssignment, if_neg hek]
        exact ih
    · rw [if_neg he]
      by_cases hek : e.1 = k
      · have hki : ¬ k = itemId := by rw [← hek]; exact he
        simp only [getAssignment, if_pos hek, if_neg hki]
      · simp only [getAssignment, if_neg hek]
        exact ih

lemma foldl_processItem_nullify (assignments : List (String × Option String))
    (itemId g : String) (items : List ReceiptItem)
    (hg : getAssignment assignments itemId = some g) :
    ∀ (a : ℚ) (shares : List ParticipantShare),
      g ∉ shares.map (fun s => s.participantId) →
      items.foldl (processItem assignments) (a, shares) =
        items.foldl (processItem (nullifyAssignment assignments itemId)) (a, shares) := by
  induction items with
  | nil => intro a shares _; rfl
  | cons item rest ih =>
    intro a shares hmem
    rw [List.foldl_cons, List.foldl_cons]
    have hstep : processItem assignments (a, shares) item =
        processItem (nullifyAssignment assignments itemId) (a, shares) item := by
      unfold processItem
      by_cases hid : item.id = itemId
      · rw [hid]
        simp only [hg, getAssignment_nullify, eq_self_iff_true, if_true,
          creditItem_of_not_mem shares g item hmem]
      · rw [getAssignment_nullify, if_neg hid]
    rw [← hstep]
    exact ih (processItem assignments (a, shares) item).1
      (processItem assignments (a, shares) item).2
      (by rw [processItem_snd_ids]; exact hmem)

lemma msgUnassigned_length (n : Nat) : 49 ≤ (msgUnassigned n).length := by
  unfold msgUnassigned
  rw [String.length_append, String.length_append]
  have h1 : ("Please assign all items. " : String).length = 25 := rfl
  have h2 : (" item(s) are unassigned." : String).length = 24 := rfl
  omega

lemma msgUnassigned_ne (n : Nat) :
    msgUnassigned n ≠ msgNoBill ∧ msgUnassigned n ≠ msgNoParticipants ∧
      msgUnassigned n ≠ msgNoItems ∧ msgUnassigned n ≠ "" := by
  have h := msgUnassigned_length n
  refine ⟨fun he => ?_, fun he => ?_, fun he => ?_, fun he => ?_⟩ <;> rw [he] at h <;>
    revert h <;> decide

lemma handleViewSummary_none (st : AppState) (hb : st.currentBill = none) :
    handleViewSummary st = { st with errorMessage := msgNoBill } := by
  simp [handleViewSummary, hb]

lemma handleViewSummary_noParts (st : AppState) (bill : BillSession)
    (hb : st.currentBill = some bill) (hp : bill.participants = []) :
    handleViewSummary st = { st with errorMessage := msgNoParticipants } := by
  simp [handleViewSummary, hb, hp]

lemma handleViewSummary_noItems (st : AppState) (bill : BillSession)
    (hb : st.currentBill = some bill) (hp : bill.participants ≠ [])
    (hi : bill.extractedItems = []) :
    handleViewSummary st = { st with errorMessage := msgNoItems } := by
  simp [handleViewSummary, hb, hi, List.length_eq_zero, hp]

lemma handleViewSummary_unassigned (st : AppState) (bill : BillSession)
    (hb : st.currentBill = some bill) (hp : bill.participants ≠ [])
    (hi : bill.extractedItems ≠ []) (hu : unassignedItems bill ≠ []) :
    handleViewSummary st =
      { st with errorMessage := msgUnassigned (unassignedItems bill).length } := by
  simp [handleViewSummary, hb, List.length_eq_zero, List.length_pos, hp, hi, hu]

lemma handleViewSummary_ok (st : AppState) (bill : BillSession)
    (hb : st.currentBill = some bill) (hp : bill.participants ≠ [])
    (hi : bill.extractedItems ≠ []) (hu : unassignedItems bill = []) :
    handleViewSummary st =
      { st with appStep := AppStep.VIEW_SUMMARY, errorMessage := "" } := by
  simp [handleViewSummary, hb, List.length_eq_zero, hp, hi, hu]

lemma sum_eq_zero_forall {l : List ℚ} (hnn : ∀ x ∈ l, 0 ≤ x) (h : l.sum = 0) :
    ∀ x ∈ l, x = 0 := by
  induction l with
  | nil => simp
  | cons x rest ih =>
    rw [List.sum_cons] at h
    have hx : 0 ≤ x := hnn x (by simp)
    have hrest : 0 ≤ rest.sum := List.sum_nonneg (fun y hy => hnn y (by simp [hy]))
    have hx0 : x = 0 := by linarith
    have hr0 : rest.sum = 0 := by linarith
    intro y hy
    rcases List.mem_cons.mp hy with h1 | h2
    · rw [h1, hx0]
    · exact ih (fun z hz => hnn z (by simp [hz])) hr0 y h2

lemma sumSubtotals_finalize (shares : List ParticipantShare) :
    sumSubtotals (finalizeTotals shares) = sumSubtotals shares := by
  unfold sumSubtotals finalizeTotals
  rw [List.map_map]
  rfl

lemma sumTaxShares_finalize (shares : List ParticipantShare) :
    sumTaxShares (finalizeTotals shares) = sumTaxShares shares := by
  unfold sumTaxShares finalizeTotals
  rw [List.map_map]
  rfl

lemma sumServiceFeeShares_finalize (shares : List ParticipantShare) :
    sumServiceFeeShares (finalizeTotals shares) = sumServiceFeeShares shares := by
  unfold sumServiceFeeShares finalizeTotals
  rw [List.map_map]
  rfl

lemma sumSubtotals_applyFees (bill : BillSession) (t : ℚ) (shares : List ParticipantShare) :
    sumSubtotals (applyFees bill t shares) = sumSubtotals shares := by
  unfold applyFees
  split
  · split
    · unfold sumSubtotals
      rw [List.map_map]
      rfl
    · rfl
  · split
    · unfold sumSubtotals
      rw [List.map_map]
      rfl
    · rfl

lemma sumTaxShares_map_prop (bill : BillSession) (t : ℚ) (l : List ParticipantShare) :
    sumTaxShares (l.map (fun s =>
      { s with taxShare := bill.taxAmount * (s.subtotal / t),
               serviceFeeShare := bill.serviceFeeAmount * (s.subtotal / t) })) =
      bill.taxAmount * (sumSubtotals l / t) := by
  unfold sumTaxShares
  rw [List.map_map]
  exact sum_mul_div l bill.taxAmount t

lemma sumServiceFeeShares_map_prop (bill : BillSession) (t : ℚ)
    (l : List ParticipantShare) :
    sumServiceFeeShares (l.map (fun s =>
      { s with taxShare := bill.taxAmount * (s.subtotal / t),
               serviceFeeShare := bill.serviceFeeAmount * (s.subtotal / t) })) =
      bill.serviceFeeAmount * (sumSubtotals l / t) := by
  unfold sumServiceFeeShares
  rw [List.map_map]
  exact sum_mul_div l bill.serviceFeeAmount t

lemma assignedTo_nil_ids (assignments : List (String × Option String))
    (items : List ReceiptItem) : assignedTo assignments [] items = 0 := by
  unfold assignedTo
  apply List.sum_eq_zero
  intro x hx
  simp only [List.mem_map] at hx
  obtain ⟨it, -, rfl⟩ := hx
  cases h : getAssignment assignments it.id <;> simp [resolvesTo, h]

lemma initialShares_inv (bill : BillSession) :
    ∀ s ∈ bill.participants.map initialShare, ∀ it ∈ s.items,
      getAssignment bill.itemAssignments it.id = some s.participantId := by
  intro s hs
  simp only [List.mem_map] at hs
  obtain ⟨p, -, rfl⟩ := hs
  intro it hit
  simp [initialShare] at hit

/-- C1: on the spec's example bill (items 20000 to A and 30000 to B, tax 5000,
service fee 0) `calculateShares` gives A taxShare 2000 and totalOwed 22000, B
taxShare 3000 and totalOwed 33000; and in general, whenever the bill's item
prices sum to a positive `totalBillSubtotal`, every returned share has
`taxShare = taxAmount * (subtotal / totalBillSubtotal)`,
`serviceFeeShare = serviceFeeAmount * (subtotal / totalBillSubtotal)` and
`totalOwed = subtotal + taxShare + serviceFeeShare`. -/
theorem calculateShares_normal_case :
    ((calculateShares exampleBill1).map (fun s => (s.participantId, s.taxShare, s.totalOwed)) =
      [("pA", (2000 : ℚ), (22000 : ℚ)), ("pB", 3000, 33000)]) ∧
    ∀ bill : BillSession, 0 < sumPrices bill.extractedItems →
      ∀ s ∈ calculateShares bill,
        s.taxShare = bill.taxAmount * (s.subtotal / sumPrices bill.extractedItems) ∧
        s.serviceFeeShare =
          bill.serviceFeeAmount * (s.subtotal / sumPrices bill.extractedItems) ∧
        s.totalOwed = s.subtotal + s.taxShare + s.serviceFeeShare := by
  constructor
  · norm_num +decide [calculateShares, distributeItems, processItem, getAssignment,
      creditItem, applyFees, finalizeTotals, initialShare, exampleBill1]
  · intro bill hpos s hs
    by_cases h0 : bill.participants.length = 0
    · simp [calculateShares, h0] at hs
    · rw [calculateShares_eq bill h0, applyFees_pos bill _ _ hpos] at hs
      simp only [finalizeTotals, List.map_map, List.mem_map] at hs
      obtain ⟨u, hu, rfl⟩ := hs
      exact ⟨rfl, rfl, rfl⟩

/-- Witness for C1: the general normal-case statement applied to the example
bill, whose subtotal 50000 is positive. -/
theorem calculateShares_normal_case_witness :
    0 < sumPrices exampleBill1.extractedItems ∧
    ∀ s ∈ calculateShares exampleBill1,
      s.taxShare = exampleBill1.taxAmount * (s.subtotal / sumPrices exampleBill1.extractedItems) ∧
      s.serviceFeeShare =
        exampleBill1.serviceFeeAmount * (s.subtotal / sumPrices exampleBill1.extractedItems) ∧
      s.totalOwed = s.subtotal + s.taxShare + s.serviceFeeShare :=
  ⟨by norm_num [sumPrices, exampleBill1],
   calculateShares_normal_case.2 exampleBill1 (by norm_num [sumPrices, exampleBill1])⟩

/-- Counterexample for C2: `cexBill2` has one participant, a single priced item
that is unassigned, and `taxAmount = 10`; its `totalBillSubtotal = 100 > 0`, yet
the tax shares of `calculateShares` sum to 0, not to `taxAmount`. -/
theorem sumTaxShares_cex :
    0 < sumPrices cexBill2.extractedItems ∧
    sumTaxShares (calculateShares cexBill2) ≠ cexBill2.taxAmount := by
  norm_num +decide [calculateShares, distributeItems, processItem, getAssignment,
    creditItem, applyFees, finalizeTotals, initialShare, sumPrices, sumTaxShares, cexBill2]

/-- C2 (amended): for every bill whose item prices sum to a positive
`totalBillSubtotal` and whose items are all assigned to participants of the
bill, the tax shares returned by `calculateShares` sum exactly to `taxAmount`
and the service-fee shares sum exactly to `serviceFeeAmount`. -/
theorem sumTaxShares_eq_taxAmount (bill : BillSession)
    (hpos : 0 < sumPrices bill.extractedItems)
    (hassign : ∀ item ∈ bill.extractedItems, assignedToParticipant bill item = true) :
    sumTaxShares (calculateShares bill) = bill.taxAmount ∧
    sumServiceFeeShares (calculateShares bill) = bill.serviceFeeAmount := by
  by_cases h0 : bill.participants.length = 0
  · exfalso
    have hnil : bill.participants = [] := List.length_eq_zero.mp h0
    have hitems : bill.extractedItems = [] := by
      cases hi : bill.extractedItems with
      | nil => rfl
      | cons it rest =>
        exfalso
        have hat := hassign it (by rw [hi]; simp)
        unfold assignedToParticipant resolvesTo at hat
        rw [show participantIds bill = [] from by simp [participantIds, hnil]] at hat
        cases hga : getAssignment bill.itemAssignments it.id <;> rw [hga] at hat <;>
          simp at hat
    rw [hitems] at hpos
    simp [sumPrices] at hpos
  · have ht : sumSubtotals ((distributeItems bill (bill.participants.map initialShare)).2) =
        sumPrices bill.extractedItems := by
      rw [distributeItems_sumSubtotals]
      exact assignedTo_eq_sumPrices bill.itemAssignments (participantIds bill)
        bill.extractedItems hassign
    have hne : sumPrices bill.extractedItems ≠ 0 := ne_of_gt hpos
    constructor
    · rw [calculateShares_eq bill h0, applyFees_pos bill _ _ hpos, sumTaxShares_finalize,
        sumTaxShares_map_prop, ht, div_self hne, mul_one]
    · rw [calculateShares_eq bill h0, applyFees_pos bill _ _ hpos,
        sumServiceFeeShares_finalize, sumServiceFeeShares_map_prop, ht, div_self hne,
        mul_one]

/-- Witness for C2 (amended): on the fully assigned example bill the tax shares
sum to 5000 and the service-fee shares to 0. -/
theorem sumTaxShares_eq_taxAmount_witness :
    sumTaxShares (calculateShares exampleBill1) = exampleBill1.taxAmount ∧
    sumServiceFeeShares (calculateShares exampleBill1) = exampleBill1.serviceFeeAmount :=
  sumTaxShares_eq_taxAmount exampleBill1 (by norm_num [sumPrices, exampleBill1]) (by decide)

/-- C3: for every bill, the subtotals of the shares returned by
`calculateShares` sum to the total price of the items whose assignment names a
participant of the bill; when every item is so assigned this equals the sum of
all item prices. -/
theorem sumSubtotals_eq_assignedPrices (bill : BillSession) :
    sumSubtotals (calculateShares bill) = assignedPrices bill ∧
    ((∀ item ∈ bill.extractedItems, assignedToParticipant bill item = true) →
      sumSubtotals (calculateShares bill) = sumPrices bill.extractedItems) := by
  have h1 : sumSubtotals (calculateShares bill) = assignedPrices bill := by
    by_cases h0 : bill.participants.length = 0
    · have hnil : bill.participants = [] := List.length_eq_zero.mp h0
      simp only [calculateShares, if_pos h0]
      unfold assignedPrices
      rw [show participantIds bill = [] from by simp [participantIds, hnil],
        assignedTo_nil_ids]
      rfl
    · rw [calculateShares_eq bill h0, sumSubtotals_finalize, sumSubtotals_applyFees,
        distributeItems_sumSubtotals]
  refine ⟨h1, fun hassign => ?_⟩
  rw [h1]
  exact assignedTo_eq_sumPrices bill.itemAssignments (participantIds bill)
    bill.extractedItems hassign

/-- Witness for C3: on the fully assigned example bill both equalities hold,
the common value being 50000. -/
theorem sumSubtotals_eq_assignedPrices_witness :
    sumSubtotals (calculateShares exampleBill1) = assignedPrices exampleBill1 ∧
    sumSubtotals (calculateShares exampleBill1) = sumPrices exampleBill1.extractedItems :=
  ⟨(sumSubtotals_eq_assignedPrices exampleBill1).1,
   (sumSubtotals_eq_assignedPrices exampleBill1).2 (by decide)⟩

/-- C4: for every bill with at least one participant whose item prices sum to 0
while `taxAmount > 0` or `serviceFeeAmount > 0`, `calculateShares` returns one
share per participant and gives every share
`taxShare = taxAmount / participantCount` and
`serviceFeeShare = serviceFeeAmount / participantCount`. -/
theorem calculateShares_degenerate_split (bill : BillSession)
    (hzero : sumPrices bill.extractedItems = 0)
    (hfees : 0 < bill.taxAmount ∨ 0 < bill.serviceFeeAmount)
    (hne : bill.participants ≠ []) :
    (calculateShares bill).length = bill.participants.length ∧
    ∀ s ∈ calculateShares bill,
      s.taxShare = bill.taxAmount / (bill.participants.length : ℚ) ∧
      s.serviceFeeShare = bill.serviceFeeAmount / (bill.participants.length : ℚ) := by
  have h0 : bill.participants.length ≠ 0 := fun h => hne (List.length_eq_zero.mp h)
  have hn : 0 < bill.participants.length := Nat.pos_of_ne_zero h0
  rw [calculateShares_eq bill h0, applyFees_deg bill _ _ hzero hfees hn]
  constructor
  · have hlen : ((distributeItems bill (bill.participants.map initialShare)).2).length =
        bill.participants.length := by
      have h := congrArg List.length (distributeItems_ids bill)
      simpa [participantIds] using h
    simp [finalizeTotals, hlen]
  · intro s hs
    simp only [finalizeTotals, List.map_map, List.mem_map] at hs
    obtain ⟨u, hu, rfl⟩ := hs
    exact ⟨rfl, rfl⟩

/-- Witness for C4: the spec's example, `taxAmount = 90000` with three
participants and no items, where every share's taxShare is 30000. -/
theorem calculateShares_degenerate_split_witness :
    sumPrices degBill.extractedItems = 0 ∧
    (0 < degBill.taxAmount ∨ 0 < degBill.serviceFeeAmount) ∧
    degBill.participants ≠ [] ∧
    ((calculateShares degBill).length = degBill.participants.length ∧
      ∀ s ∈ calculateShares degBill,
        s.taxShare = degBill.taxAmount / (degBill.participants.length : ℚ) ∧
        s.serviceFeeShare = degBill.serviceFeeAmount / (degBill.participants.length : ℚ)) :=
  ⟨rfl, Or.inl (by norm_num [degBill]), by decide,
   calculateShares_degenerate_split degBill rfl (Or.inl (by norm_num [degBill]))
     (by decide)⟩

/-- Counterexample for C8: in `cexBill8` the item prices 5 and -5 sum to 0 and
both fees are 0, yet the participant holding the +5 item gets
`subtotal = totalOwed = 5`, so not every share is all-zero. -/
theorem calculateShares_zeroTotal_cex :
    sumPrices cexBill8.extractedItems = 0 ∧ cexBill8.taxAmount = 0 ∧
    cexBill8.serviceFeeAmount = 0 ∧
    ¬ (∀ s ∈ calculateShares cexBill8, s.subtotal = 0 ∧ s.taxShare = 0 ∧
        s.serviceFeeShare = 0 ∧ s.totalOwed = 0) := by
  norm_num +decide [calculateShares, distributeItems, processItem, getAssignment,
    creditItem, applyFees, finalizeTotals, initialShare, sumPrices, cexBill8]

/-- C8 (amended): for every bill whose item prices are all nonnegative and sum
to 0, with `taxAmount = 0` and `serviceFeeAmount = 0`, every share returned by
`calculateShares` has `subtotal = taxShare = serviceFeeShare = totalOwed = 0`;
the dividing fee branches are unreachable since their guards
(`totalBillSubtotal > 0`, resp. a positive fee) fail. -/
theorem calculateShares_zeroTotal_all_zero (bill : BillSession)
    (hnn : ∀ item ∈ bill.extractedItems, 0 ≤ item.price)
    (hzero : sumPrices bill.extractedItems = 0)
    (htax : bill.taxAmount = 0) (hsvc : bill.serviceFeeAmount = 0) :
    ∀ s ∈ calculateShares bill,
      s.subtotal = 0 ∧ s.taxShare = 0 ∧ s.serviceFeeShare = 0 ∧ s.totalOwed = 0 := by
  have hall : ∀ item ∈ bill.extractedItems, item.price = 0 := by
    intro item hit
    have hzero2 : (bill.extractedItems.map (fun i => i.price)).sum = 0 := hzero
    have hforall := sum_eq_zero_forall
      (fun x hx => by
        obtain ⟨i, hi, rfl⟩ := List.mem_map.mp hx
        exact hnn i hi) hzero2
    exact hforall item.price (List.mem_map_of_mem _ hit)
  intro s hs
  by_cases h0 : bill.participants.length = 0
  · simp [calculateShares, h0] at hs
  · rw [calculateShares_eq bill h0,
      applyFees_zero_noFees bill _ _ hzero (by rw [htax, hsvc]; simp)] at hs
    obtain ⟨u, hu, rfl⟩ := finalizeTotals_mem hs
    have hQ : ∀ v ∈ (distributeItems bill (bill.participants.map initialShare)).2,
        v.subtotal = 0 ∧ v.taxShare = 0 ∧ v.serviceFeeShare = 0 :=
      foldl_processItem_preserves bill.itemAssignments bill.extractedItems
        (fun v item hit hv => ⟨by simp [hv.1, hall item hit], hv.2.1, hv.2.2⟩)
        0 (bill.participants.map initialShare)
        (fun v hv => by
          obtain ⟨p, -, rfl⟩ := List.mem_map.mp hv
          exact ⟨rfl, rfl, rfl⟩)
    obtain ⟨hsub, htax0, hsvc0⟩ := hQ u hu
    refine ⟨hsub, htax0, hsvc0, ?_⟩
    show u.subtotal + u.taxShare + u.serviceFeeShare = 0
    rw [hsub, htax0, hsvc0]
    ring

/-- Witness for C8 (amended): a bill with one zero-priced assigned item and no
fees; its single share is all-zero. -/
theorem calculateShares_zeroTotal_all_zero_witness :
    (∀ item ∈ zeroBill.extractedItems, 0 ≤ item.price) ∧
    sumPrices zeroBill.extractedItems = 0 ∧
    ∀ s ∈ calculateShares zeroBill,
      s.subtotal = 0 ∧ s.taxShare = 0 ∧ s.serviceFeeShare = 0 ∧ s.totalOwed = 0 :=
  ⟨by norm_num [zeroBill], by norm_num [sumPrices, zeroBill],
   calculateShares_zeroTotal_all_zero zeroBill (by norm_num [zeroBill])
     (by norm_num [sumPrices, zeroBill]) rfl rfl⟩

/-- C9: for every bill whose item prices sum to a strictly negative
`totalBillSubtotal`, `calculateShares` distributes no fees: every share has
`taxShare = 0`, `serviceFeeShare = 0` and `totalOwed = subtotal`. -/
theorem calculateShares_negativeTotal (bill : BillSession)
    (hneg : sumPrices bill.extractedItems < 0) :
    ∀ s ∈ calculateShares bill,
      s.taxShare = 0 ∧ s.serviceFeeShare = 0 ∧ s.totalOwed = s.subtotal := by
  intro s hs
  by_cases h0 : bill.participants.length = 0
  · simp [calculateShares, h0] at hs
  · rw [calculateShares_eq bill h0, applyFees_neg bill _ _ hneg] at hs
    obtain ⟨u, hu, rfl⟩ := finalizeTotals_mem hs
    have hQ : ∀ v ∈ (distributeItems bill (bill.participants.map initialShare)).2,
        v.taxShare = 0 ∧ v.serviceFeeShare = 0 :=
      foldl_processItem_preserves bill.itemAssignments bill.extractedItems
        (fun v item hit hv => hv)
        0 (bill.participants.map initialShare)
        (fun v hv => by
          obtain ⟨p, -, rfl⟩ := List.mem_map.mp hv
          exact ⟨rfl, rfl⟩)
    obtain ⟨ht0, hs0⟩ := hQ u hu
    refine ⟨ht0, hs0, ?_⟩
    show u.subtotal + u.taxShare + u.serviceFeeShare = u.subtotal
    rw [ht0, hs0]
    ring

/-- Witness for C9: a bill whose single item has price -100 with positive fees;
its share gets no fee and owes exactly the (negative) subtotal. -/
theorem calculateShares_negativeTotal_witness :
    sumPrices negBill.extractedItems < 0 ∧
    ∀ s ∈ calculateShares negBill,
      s.taxShare = 0 ∧ s.serviceFeeShare = 0 ∧ s.totalOwed = s.subtotal :=
  ⟨by norm_num [sumPrices, negBill],
   calculateShares_negativeTotal negBill (by norm_num [sumPrices, negBill])⟩

/-- C5: `handleViewSummary` leaves the bill untouched; with no bill, no
participants, no items or an unassigned item it keeps the step and emits the
respective distinct message (the unassigned one reporting the count); it moves
the step to `VIEW_SUMMARY` (with no error) exactly when a bill exists with at
least one participant, at least one item, and no unassigned item. -/
theorem handleViewSummary_gates (st : AppState) :
    (handleViewSummary st).currentBill = st.currentBill ∧
    (st.currentBill = none →
      handleViewSummary st = { st with errorMessage := msgNoBill }) ∧
    (∀ bill, st.currentBill = some bill →
      (bill.participants = [] →
        handleViewSummary st = { st with errorMessage := msgNoParticipants }) ∧
      (bill.participants ≠ [] → bill.extractedItems = [] →
        handleViewSummary st = { st with errorMessage := msgNoItems }) ∧
      (bill.participants ≠ [] → bill.extractedItems ≠ [] → unassignedItems bill ≠ [] →
        handleViewSummary st =
          { st with errorMessage := msgUnassigned (unassignedItems bill).length }) ∧
      (bill.participants ≠ [] → bill.extractedItems ≠ [] → unassignedItems bill = [] →
        handleViewSummary st =
          { st with appStep := AppStep.VIEW_SUMMARY, errorMessage := "" })) ∧
    ((handleViewSummary st).appStep = AppStep.VIEW_SUMMARY ∧
        (handleViewSummary st).errorMessage = "" ↔
      ∃ bill, st.currentBill = some bill ∧ bill.participants ≠ [] ∧
        bill.extractedItems ≠ [] ∧ unassignedItems bill = []) ∧
    (msgNoBill ≠ msgNoParticipants ∧ msgNoBill ≠ msgNoItems ∧
      msgNoParticipants ≠ msgNoItems ∧ msgNoBill ≠ "" ∧ msgNoParticipants ≠ "" ∧
      msgNoItems ≠ "" ∧
      ∀ n : Nat, msgUnassigned n ≠ msgNoBill ∧ msgUnassigned n ≠ msgNoParticipants ∧
        msgUnassigned n ≠ msgNoItems ∧ msgUnassigned n ≠ "") := by
  refine ⟨?_, ?_, ?_, ?_, ?_⟩
  · rcases hb : st.currentBill with _ | bill
    · rw [handleViewSummary_none st hb]
      exact hb
    · by_cases hp : bill.participants = []
      · rw [handleViewSummary_noParts st bill hb hp]
        exact hb
      · by_cases hi : bill.extractedItems = []
        · rw [handleViewSummary_noItems st bill hb hp hi]
          exact hb
        · by_cases hu : unassignedItems bill = []
          · rw [handleViewSummary_ok st bill hb hp hi hu]
            exact hb
          · rw [handleViewSummary_unassigned st bill hb hp hi hu]
            exact hb
  · exact fun hb => handleViewSummary_none st hb
  · intro bill hb
    exact ⟨fun hp => handleViewSummary_noParts st bill hb hp,
      fun hp hi => handleViewSummary_noItems st bill hb hp hi,
      fun hp hi hu => handleViewSummary_unassigned st bill hb hp hi hu,
      fun hp hi hu => handleViewSummary_ok st bill hb hp hi hu⟩
  · constructor
    · rintro ⟨hstep, hmsg⟩
      rcases hb : st.currentBill with _ | bill
      · rw [handleViewSummary_none st hb] at hmsg
        have h2 : msgNoBill = "" := hmsg
        exact absurd h2 (by decide)
      · by_cases hp : bill.participants = []
        · rw [handleViewSummary_noParts st bill hb hp] at hmsg
          have h2 : msgNoParticipants = "" := hmsg
          exact absurd h2 (by decide)
        · by_cases hi : bill.extractedItems = []
          · rw [handleViewSummary_noItems st bill hb hp hi] at hmsg
            have h2 : msgNoItems = "" := hmsg
            exact absurd h2 (by decide)
          · by_cases hu : unassignedItems bill = []
            · exact ⟨bill, rfl, hp, hi, hu⟩
            · rw [handleViewSummary_unassigned st bill hb hp hi hu] at hmsg
              have h2 : msgUnassigned (unassignedItems bill).length = "" := hmsg
              exact absurd h2 (msgUnassigned_ne _).2.2.2
    · rintro ⟨bill, hb, hp, hi, hu⟩
      rw [handleViewSummary_ok st bill hb hp hi hu]
      exact ⟨rfl, rfl⟩
  · exact ⟨by decide, by decide, by decide, by decide, by decide, by decide,
      msgUnassigned_ne⟩

/-- Witness for C5: on a state holding a bill with one participant and one
unassigned item, `handleViewSummary` keeps the step and reports one unassigned
item. -/
theorem handleViewSummary_gates_witness :
    handleViewSummary exState5 = { exState5 with errorMessage := msgUnassigned 1 } := by
  have h := ((handleViewSummary_gates exState5).2.2.1 exBill5 rfl).2.2.1
    (by decide) (by decide) (by decide)
  exact h

/-- C6: removing a participant keeps the item list unchanged, leaves no
assignment pointing at the removed participant (items previously assigned to
them come back as unassigned), preserves every other assignment verbatim, and
removes the participant from the list. The hypothesis that the assignment
entries have distinct keys reflects that a JavaScript object cannot hold a key
twice. -/
theorem handleRemoveParticipant_spec (bill : BillSession) (pid : String)
    (hnd : (bill.itemAssignments.map (fun e => e.1)).Nodup) :
    (handleRemoveParticipant bill pid).extractedItems = bill.extractedItems ∧
    (∀ itemId, getAssignment (handleRemoveParticipant bill pid).itemAssignments itemId ≠
      some pid) ∧
    (∀ itemId, getAssignment bill.itemAssignments itemId = some pid →
      getAssignment (handleRemoveParticipant bill pid).itemAssignments itemId = none) ∧
    (∀ itemId, getAssignment bill.itemAssignments itemId ≠ some pid →
      getAssignment (handleRemoveParticipant bill pid).itemAssignments itemId =
        getAssignment bill.itemAssignments itemId) ∧
    (∀ p ∈ (handleRemoveParticipant bill pid).participants, p.id ≠ pid) := by
  refine ⟨rfl, ?_, ?_, ?_, ?_⟩
  · intro itemId
    show getAssignment (bill.itemAssignments.filter (fun e => e.2 ≠ some pid)) itemId ≠
      some pid
    rw [getAssignment_filter_ne _ _ _ hnd]
    by_cases hc : getAssignment bill.itemAssignments itemId = some pid
    · rw [if_pos hc]; simp
    · rw [if_neg hc]; exact hc
  · intro itemId hpid
    show getAssignment (bill.itemAssignments.filter (fun e => e.2 ≠ some pid)) itemId = none
    rw [getAssignment_filter_ne _ _ _ hnd, if_pos hpid]
  · intro itemId hne
    show getAssignment (bill.itemAssignments.filter (fun e => e.2 ≠ some pid)) itemId =
      getAssignment bill.itemAssignments itemId
    rw [getAssignment_filter_ne _ _ _ hnd, if_neg hne]
  · intro p hp
    have hmem := (List.mem_filter.mp hp).2
    simpa using hmem

/-- Witness for C6: removing `pA` from `exBill6` keeps its three items, clears
the assignment of `i1` (previously `pA`), and keeps `i2` assigned to `pB`. -/
theorem handleRemoveParticipant_spec_witness :
    (handleRemoveParticipant exBill6 "pA").extractedItems = exBill6.extractedItems ∧
    getAssignment (handleRemoveParticipant exBill6 "pA").itemAssignments "i1" = none ∧
    getAssignment (handleRemoveParticipant exBill6 "pA").itemAssignments "i2" =
      some "pB" := by
  have h := handleRemoveParticipant_spec exBill6 "pA" (by decide)
  refine ⟨h.1, h.2.2.1 "i1" rfl, ?_⟩
  rw [h.2.2.2.1 "i2" (by decide)]
  rfl

/-- C7: when an in-progress bill exists, `handleSaveBill` computes
`calculateShares` on it, freezes the result in the stored bill's
`calculatedShares`, prepends that stored bill to the history via
`addBillToStorage`, clears the in-progress bill and returns the step to
`UPLOAD_RECEIPT`. -/
theorem handleSaveBill_spec (st : SaveState) (bill : BillSession)
    (h : st.currentBill = some bill) :
    handleSaveBill st =
      { currentBill := none, appStep := AppStep.UPLOAD_RECEIPT,
        historicalBills := addBillToStorage
          { toBillSession := bill, calculatedShares := some (calculateShares bill) }
          st.historicalBills } := by
  simp [handleSaveBill, h]

/-- Witness for C7: saving `exampleBill1` from an empty history yields exactly
the one-element history with the frozen shares, no current bill, and the
`UPLOAD_RECEIPT` step. -/
theorem handleSaveBill_spec_witness :
    handleSaveBill exSave7 =
      { currentBill := none, appStep := AppStep.UPLOAD_RECEIPT,
        historicalBills :=
          [{ toBillSession := exampleBill1,
             calculatedShares := some (calculateShares exampleBill1) }] } :=
  handleSaveBill_spec exSave7 exampleBill1 rfl

/-- C10: an item assigned to an id that is not among the bill's participants is
treated by `calculateShares` exactly like an unassigned item — the result is
unchanged if that entry is rewritten to `null` (in particular its price still
enters `totalBillSubtotal` through the unchanged item loop) — and such an item
is appended to no share's item list. -/
theorem calculateShares_ghostAssignment (bill : BillSession) (itemId g : String)
    (hg : getAssignment bill.itemAssignments itemId = some g)
    (hout : g ∉ participantIds bill) :
    calculateShares bill = calculateShares
      { bill with itemAssignments := nullifyAssignment bill.itemAssignments itemId } ∧
    ∀ s ∈ calculateShares bill, ∀ item ∈ s.items, item.id ≠ itemId := by
  constructor
  · by_cases h0 : bill.participants.length = 0
    · unfold calculateShares
      rw [if_pos h0, if_pos (show ({ bill with itemAssignments := nullifyAssignment bill.itemAssignments itemId } : BillSession).participants.length = 0 from h0)]
    · have h0' : ({ bill with itemAssignments := nullifyAssignment bill.itemAssignments itemId } : BillSession).participants.length ≠ 0 := h0
      rw [calculateShares_eq bill h0, calculateShares_eq _ h0']
      have hfold : distributeItems bill (bill.participants.map initialShare) =
          distributeItems { bill with itemAssignments := nullifyAssignment bill.itemAssignments itemId } (bill.participants.map initialShare) :=
        foldl_processItem_nullify bill.itemAssignments itemId g bill.extractedItems hg 0
          (bill.participants.map initialShare)
          (by rw [initialShares_ids]; exact hout)
      show finalizeTotals (applyFees bill (sumPrices bill.extractedItems)
          (distributeItems bill (bill.participants.map initialShare)).2) =
        finalizeTotals (applyFees bill (sumPrices bill.extractedItems)
          (distributeItems { bill with itemAssignments := nullifyAssignment bill.itemAssignments itemId } (bill.participants.map initialShare)).2)
      rw [← hfold]
  · intro s hs item hitem hid
    by_cases h0 : bill.participants.length = 0
    · simp [calculateShares, h0] at hs
    · rw [calculateShares_eq bill h0] at hs
      obtain ⟨u, hu, rfl⟩ := finalizeTotals_mem hs
      obtain ⟨v, hv, hitems, hpid, -⟩ := applyFees_mem hu
      have hitem2 : item ∈ u.items := hitem
      have hitem3 : item ∈ v.items := by rw [← hitems]; exact hitem2
      have hinv := foldl_processItem_itemsInv bill.itemAssignments bill.extractedItems 0
        (bill.participants.map initialShare) (initialShares_inv bill) v hv item hitem3
      rw [hid, hg] at hinv
      have hgv : g = v.participantId := by injection hinv
      apply hout
      rw [hgv, ← distributeItems_ids bill]
      exact List.mem_map_of_mem _ hv

/-- Witness for C10: in `ghostBill` the item `i1` is assigned to the id
`ghost`, which is not a participant; the computation matches the one with that
entry nulled, and no share lists `i1`. -/
theorem calculateShares_ghostAssignment_witness :
    (calculateShares ghostBill = calculateShares
      { ghostBill with itemAssignments := nullifyAssignment ghostBill.itemAssignments "i1" }) ∧
    ∀ s ∈ calculateShares ghostBill, ∀ item ∈ s.items, item.id ≠ "i1" :=
  calculateShares_ghostAssignment ghostBill "i1" "ghost" rfl (by decide)

end KuloSplit


